import Mathlib

/-!
Verification of the execution protocol of the sandboxed-kernel service
(`apps/sandboxes/container/src`): the REPL evaluation rule of the generated
wrapper programs, the magic-command preprocessor, the batch output-record
post-processing, the streaming NDJSON line-buffer parser with its drain
phase, the streaming stdout interceptor, the namespace-persistence filter,
and the recreate-and-retry loop of the streaming route.

Python strings are modelled as `List Char` where buffer mechanics matter and
as `String` elsewhere.  External library behaviour (the JSON codec, `pickle`)
is abstracted into decoder parameters or boolean fields, since those
libraries are outside the repository.
-/

/-! ## Generic string helpers (models of Python `str` methods) -/

/-- Model of Python `str.strip()`: drop whitespace from both ends. -/
def trimChars (l : List Char) : List Char :=
  ((l.dropWhile Char.isWhitespace).reverse.dropWhile Char.isWhitespace).reverse

/-- Model of Python `str.lstrip()`: drop leading whitespace. -/
def lstripChars (l : List Char) : List Char :=
  l.dropWhile Char.isWhitespace

/-- Split a character list at every newline: returns the complete lines
(without their terminating newline) in order, together with the remainder
after the last newline.  This is the denotation of the source loops
`while "\n" in buffer: line, buffer = buffer.split("\n", 1)`. -/
def splitLines : List Char → List (List Char) × List Char
  | [] => ([], [])
  | c :: cs =>
    let r := splitLines cs
    if c = '\n' then ([] :: r.1, r.2)
    else
      match r with
      | ([], rem) => ([], c :: rem)
      | (l :: ls, rem) => ((c :: l) :: ls, rem)

/-- Model of Python `str.split(sep)` for a one-character separator
(keeps empty segments, always returns at least one segment). -/
def splitOnChar (sep : Char) : List Char → List (List Char)
  | [] => [[]]
  | c :: cs =>
    let r := splitOnChar sep cs
    if c = sep then [] :: r
    else
      match r with
      | [] => [[c]]
      | l :: ls => (c :: l) :: ls

/-- Model of Python `sep.join(segments)` for a one-character separator. -/
def joinSep (sep : Char) : List (List Char) → List Char
  | [] => []
  | [l] => l
  | l :: ls => l ++ sep :: joinSep sep ls

/-- Model of Python `str.split()` (no argument): split on runs of
whitespace, dropping empty tokens.  `cur` is the reversed token being read. -/
def pySplitWsAux (cur : List Char) : List Char → List (List Char)
  | [] => if cur = [] then [] else [cur.reverse]
  | c :: cs =>
    if c.isWhitespace then
      if cur = [] then pySplitWsAux [] cs else cur.reverse :: pySplitWsAux [] cs
    else pySplitWsAux (c :: cur) cs

def pySplitWs (l : List Char) : List (List Char) := pySplitWsAux [] l

/-- Model of Python `s[:n]`. -/
def takeStr (n : Nat) (s : String) : String := ⟨s.toList.take n⟩

/-- Model of Python `"".join(parts)`. -/
def joinStrings (parts : List String) : String := String.join parts

/-- Decidable substring containment, modelling Python `needle in hay`. -/
def containsSub (needle hay : String) : Bool :=
  hay.toList.tails.any (fun t => needle.toList.isPrefixOf t)

/-! ## C1 — `execute_with_result` (REPL evaluation rule)

The wrapper parses the fragment with `ast.parse`; the parse outcome is
modelled as data.  A top-level statement is modelled by its effect on an
abstract interpreter state `σ`: a bare expression additionally has a value
in `α` (evaluating it may also change the state, as in Python). -/

/-- A top-level Python statement, modelled semantically.  `simple` covers
every statement that is not a bare expression (`ast.Expr`); `bareExpr`
covers a bare expression, whose evaluation yields a state and a value. -/
inductive PyStmt (σ α : Type) where
  | simple (run : σ → σ)
  | bareExpr (ev : σ → σ × α)

/-- Executing one statement inside a block discards any expression value. -/
def stmtRun {σ α : Type} : PyStmt σ α → σ → σ
  | .simple r, s => r s
  | .bareExpr e, s => (e s).1

/-- Model of `exec(compile(mod, ..., "exec"), globals)` on a statement list. -/
def execBlock {σ α : Type} (body : List (PyStmt σ α)) (s : σ) : σ :=
  body.foldl (fun s st => stmtRun st s) s

/-- The outcome of `ast.parse(code)`: either a `SyntaxError` (in which case
the source falls back to `exec`ing the raw text, whose block effect is
`raw`), or a list of top-level statements. -/
inductive ParsedFragment (σ α : Type) where
  | failed (raw : σ → σ)
  | ok (body : List (PyStmt σ α))

/-- Model of `execute_with_result` in `services/execution.py` (both the
batch wrapper, lines 80-102, and the streaming wrapper, lines 243-261):
on parse failure exec the raw text and return no value; on an empty body
return no value; if the last statement is a bare expression, exec the
preceding statements as a block (only when there are any, mirroring
`if len(tree.body) > 1`) and evaluate the final expression, returning its
value; otherwise exec the whole body and return no value. -/
def execute_with_result {σ α : Type} : ParsedFragment σ α → σ → σ × Option α
  | .failed raw, g => (raw g, none)
  | .ok body, g =>
    match body.getLast? with
    | none => (g, none)
    | some (.bareExpr ev) =>
      let g1 := if body.length > 1 then execBlock body.dropLast g else g
      let r := ev g1
      (r.1, some r.2)
    | some (.simple _) => (execBlock body g, none)

theorem execBlock_nil {σ α : Type} (g : σ) : execBlock ([] : List (PyStmt σ α)) g = g := rfl

/-- C1: for a fragment parsing to statements ending in a bare expression,
the wrapper executes all preceding statements as one block, then evaluates
the final expression and returns its value; for a fragment ending in a
non-expression statement it executes the whole sequence and returns no
value; for a fragment that fails to parse it executes the raw text as a
single block and returns no value. -/
theorem execute_with_result_spec {σ α : Type}
    (pre : List (PyStmt σ α)) (ev : σ → σ × α) (r : σ → σ) (raw : σ → σ) (g : σ) :
    execute_with_result (.ok (pre ++ [.bareExpr ev])) g
      = ((ev (execBlock pre g)).1, some (ev (execBlock pre g)).2)
    ∧ execute_with_result (.ok (pre ++ [.simple r])) g
      = (execBlock (pre ++ [.simple r]) g, none)
    ∧ @execute_with_result σ α (.failed raw) g = (raw g, none) := by
  refine ⟨?_, ?_, rfl⟩
  · simp only [execute_with_result, List.getLast?_concat, List.dropLast_concat]
    rcases pre with _ | ⟨p, ps⟩
    · simp [execBlock_nil]
    · simp
  · simp only [execute_with_result, List.getLast?_concat]

/-! ## Magic preprocessor (`utils/preprocessing.py`) — C6, C9 -/

/-- Character list of a string literal. -/
def lit (s : String) : List Char := s.toList

/-- The ASCII single-quote character (written via its code point to keep
string literals quote-free). -/
def squote : Char := Char.ofNat 39

/-- Escape one character for a Python string literal quoted by `q`.
Models the escaping performed by Python `repr` for the characters that can
occur in the claims (backslash, the quote character, newline, carriage
return, tab); other non-printable escapes are not modelled. -/
def pyEscChar (q : Char) (c : Char) : List Char :=
  if c = '\\' then ['\\', '\\']
  else if c = q then ['\\', q]
  else if c = '\n' then ['\\', 'n']
  else if c = '\r' then ['\\', 'r']
  else if c = '\t' then ['\\', 't']
  else [c]

/-- Model of Python `repr` on a string: single-quoted, unless the string
contains a single quote and no double quote, in which case double-quoted. -/
def pyRepr (l : List Char) : List Char :=
  let q := if l.contains squote && !l.contains '"' then '"' else squote
  q :: ((l.map (pyEscChar q)).flatten ++ [q])

/-- Join with a multi-character separator, modelling Python `sep.join`. -/
def joinList (sep : List Char) : List (List Char) → List Char
  | [] => []
  | [l] => l
  | l :: ls => l ++ sep ++ joinList sep ls

/-- Split at the first `=`, modelling Python `s.split("=", 1)` when `=` is
present (`none` when it is absent). -/
def splitFirstEq : List Char → Option (List Char × List Char)
  | [] => none
  | c :: cs =>
    if c = '=' then some ([], cs)
    else (splitFirstEq cs).map (fun p => (c :: p.1, p.2))

/-- The package-manager invocation emitted for `%pip`/`%conda`: mirrors the
f-string `import subprocess; subprocess.run(["<mgr>", <repr args>])` where
the arguments are `args.split()` of the stripped remainder. -/
def packageInvocation (mgr : String) (argsrc : List Char) : List Char :=
  lit "import subprocess; subprocess.run([\"" ++ lit mgr ++ lit "\", "
    ++ joinList (lit ", ") ((pySplitWs (trimChars argsrc)).map pyRepr) ++ lit "])"

/-- One iteration of the per-line loop of `preprocess_ipython_magics`
(`utils/preprocessing.py`, lines 19-61): first match wins, indentation
(the leading-whitespace prefix) preserved. -/
def processMagicLine (line : List Char) : List Char :=
  let stripped := lstripChars line
  let indent := line.takeWhile Char.isWhitespace
  if (lit "!").isPrefixOf stripped then
    indent ++ lit "import subprocess; subprocess.run("
      ++ pyRepr (stripped.drop 1) ++ lit ", shell=True)"
  else if (lit "%%").isPrefixOf stripped then
    indent ++ lit "# Cell magic not supported: " ++ stripped
  else if (lit "%pip ").isPrefixOf stripped || (lit "%pip\t").isPrefixOf stripped then
    indent ++ packageInvocation "pip" (stripped.drop 5)
  else if (lit "%conda ").isPrefixOf stripped then
    indent ++ packageInvocation "conda" (stripped.drop 7)
  else if (lit "%cd ").isPrefixOf stripped then
    indent ++ lit "import os; os.chdir(" ++ pyRepr (trimChars (stripped.drop 4)) ++ lit ")"
  else if (lit "%env ").isPrefixOf stripped then
    let env_expr := trimChars (stripped.drop 5)
    match splitFirstEq env_expr with
    | some (key, val) =>
      indent ++ lit "import os; os.environ[" ++ pyRepr (trimChars key)
        ++ lit "] = " ++ pyRepr (trimChars val)
    | none =>
      indent ++ lit "import os; print(os.environ.get(" ++ pyRepr env_expr ++ lit ", \"\"))"
  else if (lit "%").isPrefixOf stripped then
    indent ++ lit "# Line magic not supported: " ++ stripped
  else
    line

/-- Model of `preprocess_ipython_magics` (`utils/preprocessing.py`):
split on newlines, rewrite each line by the first-match-wins rule table,
join the rewritten lines with newlines. -/
def preprocess_ipython_magics (code : String) : String :=
  ⟨joinSep '\n' ((splitOnChar '\n' code.toList).map processMagicLine)⟩

/-- A line is plain when its stripped form starts with neither `!` nor `%`. -/
def plainLine (l : List Char) : Bool :=
  match lstripChars l with
  | [] => true
  | c :: _ => !(c = '!' : Bool) && !(c = '%' : Bool)

theorem splitOnChar_ne_nil (sep : Char) (l : List Char) : splitOnChar sep l ≠ [] := by
  cases l with
  | nil => simp [splitOnChar]
  | cons c cs =>
    rcases h : splitOnChar sep cs with _ | ⟨x, xs⟩ <;>
      simp [splitOnChar, h] <;> split <;> simp

theorem joinSep_splitOnChar (sep : Char) (l : List Char) :
    joinSep sep (splitOnChar sep l) = l := by
  induction l with
  | nil => rfl
  | cons c cs ih =>
    rcases h : splitOnChar sep cs with _ | ⟨x, xs⟩
    · exact absurd h (splitOnChar_ne_nil sep cs)
    · rw [h] at ih
      by_cases hc : c = sep
      · subst hc
        simp only [splitOnChar, h, if_pos rfl]
        simpa [joinSep] using ih
      · cases xs with
        | nil =>
          simp only [splitOnChar, h, if_neg hc]
          simp only [joinSep] at ih ⊢
          rw [ih]
        | cons y ys =>
          simp only [splitOnChar, h, if_neg hc]
          simp only [joinSep] at ih ⊢
          rw [← ih]
          simp

theorem processMagicLine_plain (l : List Char) (h : plainLine l = true) :
    processMagicLine l = l := by
  unfold processMagicLine
  rcases hs : lstripChars l with _ | ⟨c, cs⟩
  · simp [hs, lit, List.isPrefixOf]
  · rw [plainLine, hs] at h
    simp only [Bool.and_eq_true, Bool.not_eq_true', decide_eq_false_iff_not] at h
    simp [hs, lit, List.isPrefixOf, Ne.symm h.1, Ne.symm h.2]

/-- C9: the magic preprocessor is a total function from strings to strings
(it always produces an output), and it is the identity on plain code: when
no line's stripped form starts with `!` or `%`, the output equals the input
exactly. -/
theorem preprocess_ipython_magics_total_id (code : String) :
    (∃ out, preprocess_ipython_magics code = out)
    ∧ ((∀ l ∈ splitOnChar '\n' code.toList, plainLine l = true) →
        preprocess_ipython_magics code = code) := by
  refine ⟨⟨_, rfl⟩, fun h => ?_⟩
  unfold preprocess_ipython_magics
  have hm : (splitOnChar '\n' code.toList).map processMagicLine
      = (splitOnChar '\n' code.toList).map id :=
    List.map_congr_left (fun l hl => processMagicLine_plain l (h l hl))
  rw [hm, List.map_id, joinSep_splitOnChar]
  cases code
  rfl

theorem preprocess_ipython_magics_total_id_witness :
    (∀ l ∈ splitOnChar '\n' (String.toList "x = 1\ny = 2"), plainLine l = true)
    ∧ preprocess_ipython_magics "x = 1\ny = 2" = "x = 1\ny = 2" :=
  ⟨by decide, (preprocess_ipython_magics_total_id "x = 1\ny = 2").2 (by decide)⟩

/-- C6 counterexample: a line whose stripped form is `%conda` followed by a
tab (a whitespace character) is not rewritten to a package-manager
invocation; it falls through to the unsupported-line-magic rule and becomes
a comment. -/
theorem conda_tab_not_rewritten :
    preprocess_ipython_magics "%conda\tinstall numpy"
      = "# Line magic not supported: %conda\tinstall numpy"
    ∧ preprocess_ipython_magics "%conda\tinstall numpy"
      ≠ ⟨packageInvocation "conda" (lit "install numpy")⟩ := by
  constructor <;> decide

/-- C6 (amended): a line whose stripped form starts with `%pip` followed by
a space or a tab is rewritten, indentation preserved, to a pip invocation
whose arguments are the remaining whitespace-separated tokens; a line whose
stripped form starts with `%conda` followed by a space is rewritten the same
way for conda; but `%conda` followed by a tab is not recognized and the line
becomes an unsupported-line-magic comment. -/
theorem preprocess_pip_conda_spec (line rest : List Char) :
    (lstripChars line = lit "%pip " ++ rest →
      processMagicLine line
        = line.takeWhile Char.isWhitespace ++ packageInvocation "pip" rest)
    ∧ (lstripChars line = lit "%pip\t" ++ rest →
      processMagicLine line
        = line.takeWhile Char.isWhitespace ++ packageInvocation "pip" rest)
    ∧ (lstripChars line = lit "%conda " ++ rest →
      processMagicLine line
        = line.takeWhile Char.isWhitespace ++ packageInvocation "conda" rest)
    ∧ (lstripChars line = lit "%conda\t" ++ rest →
      processMagicLine line
        = line.takeWhile Char.isWhitespace ++ lit "# Line magic not supported: "
          ++ lstripChars line) := by
  refine ⟨fun h => ?_, fun h => ?_, fun h => ?_, fun h => ?_⟩ <;>
    simp only [processMagicLine, h] <;>
    simp +decide [lit, List.isPrefixOf]

theorem preprocess_pip_conda_spec_witness :
    lstripChars (lit "  %pip install numpy") = lit "%pip " ++ lit "install numpy"
    ∧ processMagicLine (lit "  %pip install numpy")
        = (lit "  %pip install numpy").takeWhile Char.isWhitespace
          ++ packageInvocation "pip" (lit "install numpy") :=
  ⟨by decide,
    (preprocess_pip_conda_spec (lit "  %pip install numpy") (lit "install numpy")).1
      (by decide)⟩

/-! ## Result formatting (`format_result` in both wrappers) — C8 -/

/-- A result payload: dataframe-tagged (content is the record-oriented JSON
serialization) or text (content is the display representation).  The batch
wrapper spells the tag `type: dataframe/result` and the streaming wrapper
`format: dataframe/text`; the payload itself is identical. -/
inductive ResultPayload where
  | dataframe (content : String)
  | text (content : String)
deriving DecidableEq

/-- How a Python value looks to `format_result`: whether it is a recognized
tabular value (`pd.DataFrame`/`pd.Series`, carrying its canonical
record-oriented serialization), and its `repr` string (`none` when `repr`
raises). -/
structure PyObjView where
  tabular : Option String
  reprStr : Option String
deriving DecidableEq

/-- A value reaching `format_result`: Python `None` or an object. -/
inductive PyValue where
  | vnone
  | vobj (o : PyObjView)

/-- The `repr` fallback branch of `format_result`: suppress representations
that start with `<` and contain `object at 0x`. -/
def formatRepr (o : PyObjView) : Option ResultPayload :=
  match o.reprStr with
  | none => none
  | some r =>
    if (lit "<").isPrefixOf r.toList && containsSub "object at 0x" r then none
    else some (.text r)

/-- Model of `format_result` (`services/execution.py` lines 62-78 and
227-241; the two copies differ only in tag spelling).  `pandasLoaded`
models the guard `"pandas" in sys.modules`. -/
def format_result (pandasLoaded : Bool) (v : PyValue) : Option ResultPayload :=
  match v with
  | .vnone => none
  | .vobj o =>
    if pandasLoaded then
      match o.tabular with
      | some j => some (.dataframe j)
      | none => formatRepr o
    else formatRepr o

/-- C8: the result formatter returns no payload when the last-expression
value is `None`; a dataframe-tagged payload carrying the record-oriented
serialization when the value is a recognized tabular type (such a value can
only exist with pandas loaded); otherwise the display representation, which
is suppressed exactly when it matches the default-object pattern (starts
with `<` and contains `object at 0x`). -/
theorem format_result_spec (pandasLoaded : Bool) (o : PyObjView) (j r : String) :
    (format_result pandasLoaded PyValue.vnone = none)
    ∧ (pandasLoaded = true → o.tabular = some j →
        format_result pandasLoaded (.vobj o) = some (.dataframe j))
    ∧ (o.tabular = none →
        format_result pandasLoaded (.vobj o) = formatRepr o)
    ∧ (o.reprStr = none → formatRepr o = none)
    ∧ (o.reprStr = some r → ((lit "<").isPrefixOf r.toList && containsSub "object at 0x" r) = true →
        formatRepr o = none)
    ∧ (o.reprStr = some r → ((lit "<").isPrefixOf r.toList && containsSub "object at 0x" r) = false →
        formatRepr o = some (.text r)) := by
  refine ⟨rfl, fun hp ht => ?_, fun ht => ?_, fun hr => ?_,
    fun hr hm => ?_, fun hr hm => ?_⟩
  · simp [format_result, hp, ht]
  · cases pandasLoaded <;> simp [format_result, ht]
  · simp [formatRepr, hr]
  · simp only [formatRepr, hr]
    rw [hm]
    rfl
  · simp only [formatRepr, hr]
    rw [hm]
    rfl

theorem format_result_spec_witness :
    format_result true (.vobj ⟨some "[]", some "abc"⟩) = some (.dataframe "[]")
    ∧ format_result true (.vobj ⟨none, some "<A object at 0x1>"⟩) = none := by
  refine ⟨(format_result_spec true ⟨some "[]", some "abc"⟩ "[]" "abc").2.1 rfl rfl, ?_⟩
  have h3 := (format_result_spec true ⟨none, some "<A object at 0x1>"⟩ "x"
    "<A object at 0x1>").2.2.1 rfl
  have h5 := (format_result_spec true ⟨none, some "<A object at 0x1>"⟩ "x"
    "<A object at 0x1>").2.2.2.2.1 rfl (by decide)
  rw [h3, h5]

/-! ## Batch executor output processing (`execute_on_kernel`) — C7 -/

/-- The batch output record: the JSON object printed by the batch wrapper
as its single output line, and returned by `execute_on_kernel`. -/
structure OutputRecord where
  cell_id : String
  yjs_cell_id : String
  stdout : String
  stderr : String
  error : Option String
  images : List String
  result : Option ResultPayload
deriving DecidableEq

/-- Stderr merging of `execute_on_kernel` (lines 355-360): when the process
also wrote to standard error, that text is appended to (or becomes) the
parsed record's stderr field. -/
def mergeStderr (rec : OutputRecord) (stderr_lines : List String) : OutputRecord :=
  if stderr_lines = [] then rec
  else if rec.stderr = "" then {rec with stderr := joinStrings stderr_lines}
  else {rec with stderr := rec.stderr ++ "\n" ++ joinStrings stderr_lines}

/-- Model of the output-processing phase of `execute_on_kernel`
(`services/execution.py` lines 331-373), once the process's stdout and
stderr lines have been collected.  `parse` models `json.loads` applied to
the last stdout line; `Except.error` carries the decoder's error
description. -/
def execute_on_kernel (parse : String → Except String OutputRecord)
    (cell_id yjs_cell_id : String)
    (output_lines stderr_lines : List String) : OutputRecord :=
  match output_lines.getLast? with
  | none =>
    { cell_id := cell_id, yjs_cell_id := yjs_cell_id, stdout := "", stderr := "",
      error := some (if stderr_lines = [] then "No output from kernel"
        else joinStrings stderr_lines),
      images := [], result := none }
  | some last =>
    match parse last with
    | .ok rec => mergeStderr rec stderr_lines
    | .error e =>
      { cell_id := cell_id, yjs_cell_id := yjs_cell_id,
        stdout := joinStrings output_lines, stderr := joinStrings stderr_lines,
        error := some ("Kernel output parse error: " ++ e ++ "\nRaw output: "
          ++ takeStr 500 (joinStrings output_lines)),
        images := [], result := none }

theorem takeStr_length_le (n : Nat) (s : String) : (takeStr n s).length ≤ n := by
  show (s.toList.take n).length ≤ n
  rw [List.length_take]
  omega

/-- C7: when the collected output is non-empty but its last line fails to
parse as JSON, the returned record is error-typed: its error field holds the
parse-error description followed by the first at-most-500 characters of the
raw unparsed output (never more), its result field is absent, and its image
list is empty. -/
theorem execute_on_kernel_parse_failure
    (parse : String → Except String OutputRecord) (cid yid last e : String)
    (output_lines stderr_lines : List String)
    (hlast : output_lines.getLast? = some last)
    (hparse : parse last = .error e) :
    (execute_on_kernel parse cid yid output_lines stderr_lines).error
      = some ("Kernel output parse error: " ++ e ++ "\nRaw output: "
          ++ takeStr 500 (joinStrings output_lines))
    ∧ (takeStr 500 (joinStrings output_lines)).length ≤ 500
    ∧ (execute_on_kernel parse cid yid output_lines stderr_lines).result = none
    ∧ (execute_on_kernel parse cid yid output_lines stderr_lines).images = [] := by
  have hrec : execute_on_kernel parse cid yid output_lines stderr_lines
      = { cell_id := cid, yjs_cell_id := yid,
          stdout := joinStrings output_lines, stderr := joinStrings stderr_lines,
          error := some ("Kernel output parse error: " ++ e ++ "\nRaw output: "
            ++ takeStr 500 (joinStrings output_lines)),
          images := [], result := none } := by
    simp only [execute_on_kernel, hlast, hparse]
  rw [hrec]
  exact ⟨rfl, takeStr_length_le 500 _, rfl, rfl⟩

theorem execute_on_kernel_parse_failure_witness :
    (execute_on_kernel (fun _ => .error "bad") "c" "y" ["hello\n", "oops"] []).error
      = some "Kernel output parse error: bad\nRaw output: hello\noops"
    ∧ (execute_on_kernel (fun _ => .error "bad") "c" "y" ["hello\n", "oops"] []).result
      = none := by
  have h := execute_on_kernel_parse_failure (fun _ => .error "bad") "c" "y" "oops" "bad"
    ["hello\n", "oops"] [] (by rfl) rfl
  refine ⟨?_, h.2.2.1⟩
  rw [h.1]
  decide

/-! ## Stream executor (`stream_execute_on_kernel`) — C2, C4 -/

/-- Abstract JSON decoder for stream events.  `parse` models `json.loads`
applied to one line: `none` models `json.JSONDecodeError`, `some` is any
successfully decoded JSON value.  `isObj` tells whether the decoded value
is a JSON object (a Python dict — the only decoded values that have a
`.get` method).  The accessors model `event.get("type", "unknown")`,
`event.get("data", "")` and `event.get("message", "")` on objects.  The
JSON library is outside the repository, so it is a parameter of the
model. -/
structure Decoder (J : Type) where
  parse : List Char → Option J
  isObj : J → Bool
  typeOf : J → String
  dataOf : J → List Char
  messageOf : J → String

/-- A forwarded NDJSON event: a parsed line forwarded unchanged, a
synthesized stdout event wrapping a non-JSON line, or the synthesized
stderr event of the drain phase. -/
inductive StreamEvent where
  | raw (line : List Char)
  | synthStdout (data : List Char)
  | synthStderr (data : List Char)
deriving DecidableEq

/-- The stream executor's state: the accumulators kept for persistence, the
partial-line buffer, and the events forwarded so far (in order). -/
structure StreamState (J : Type) where
  stdoutAcc : List Char
  images : List (List Char)
  resultEv : Option J
  errorMsg : Option String
  buf : List Char
  events : List StreamEvent
deriving DecidableEq

def initState {J : Type} : StreamState J :=
  { stdoutAcc := [], images := [], resultEv := none, errorMsg := none,
    buf := [], events := [] }

/-- Process one complete line (the body of the `while "\n" in line_buffer`
loop, `services/execution.py` lines 402-425): strip it and skip it when
empty; otherwise decode it.  Decode failure (`json.JSONDecodeError`, the
only exception the `try` catches) accumulates the stripped line as stdout
text and forwards it as a synthesized stdout event.  A decoded JSON object
updates the accumulator selected by its type and the line is forwarded
unchanged (re-terminated).  A decoded non-object has no `.get` method, so
`event.get("type", "unknown")` raises `AttributeError`, which is not
caught and escapes the generator: no event is forwarded for that line and
the stream aborts — `Except.error` carries the events forwarded before the
abort, the only observable left of the dead generator. -/
def processLine {J : Type} (d : Decoder J) (st : StreamState J) (rawLine : List Char) :
    Except (List StreamEvent) (StreamState J) :=
  let line := trimChars rawLine
  if line = [] then .ok st
  else
    match d.parse line with
    | some ev =>
      if d.isObj ev then
        let st1 :=
          if d.typeOf ev = "stdout" then {st with stdoutAcc := st.stdoutAcc ++ d.dataOf ev}
          else if d.typeOf ev = "image" then {st with images := st.images ++ [d.dataOf ev]}
          else if d.typeOf ev = "result" then {st with resultEv := some ev}
          else if d.typeOf ev = "error" then {st with errorMsg := some (d.messageOf ev)}
          else st
        .ok {st1 with events := st1.events ++ [.raw (line ++ ['\n'])]}
      else .error st.events
    | none =>
      .ok {st with stdoutAcc := st.stdoutAcc ++ line ++ ['\n'],
                   events := st.events ++ [.synthStdout (line ++ ['\n'])]}

/-- The inner `while` loop over the complete lines split off from the
buffer: process them in order, stopping when a line raises. -/
def feedLines {J : Type} (d : Decoder J) : List (List Char) → StreamState J →
    Except (List StreamEvent) (StreamState J)
  | [], st => .ok st
  | l :: ls, st =>
    match processLine d st l with
    | .ok st1 => feedLines d ls st1
    | .error e => .error e

/-- Feed one stdout chunk (`async for chunk in process.stdout`, lines
399-425): append it to the line buffer, split off and process every
complete line, and keep the remainder in the buffer — unless a line raised,
which aborts the iteration. -/
def feedChunk {J : Type} (d : Decoder J) (st : StreamState J) (chunk : List Char) :
    Except (List StreamEvent) (StreamState J) :=
  (feedLines d (splitLines (st.buf ++ chunk)).1 st).map
    (fun s => {s with buf := (splitLines (st.buf ++ chunk)).2})

/-- The chunk loop: an exception escaping one chunk iteration ends the
loop. -/
def runChunksGo {J : Type} (d : Decoder J) : StreamState J → List (List Char) →
    Except (List StreamEvent) (StreamState J)
  | st, [] => .ok st
  | st, c :: cs =>
    match feedChunk d st c with
    | .ok st1 => runChunksGo d st1 cs
    | .error e => .error e

/-- The whole chunk loop from the initial state: `Except.ok` with the final
state when every line is benign, `Except.error` with the events forwarded
so far when a line decoded to a JSON non-object and the loop raised. -/
def runChunksE {J : Type} (d : Decoder J) (chunks : List (List Char)) :
    Except (List StreamEvent) (StreamState J) :=
  runChunksGo d initState chunks

/-- The observable pre-drain state of the chunk loop: its final state when
it completes, and just the forwarded events when it aborted.  The drain
phases below run only after a completed loop — on an abort the escaped
exception has already destroyed the generator. -/
def runChunks {J : Type} (d : Decoder J) (chunks : List (List Char)) : StreamState J :=
  match runChunksE d chunks with
  | .ok st => st
  | .error evs => {initState with events := evs}

theorem splitLines_cons (c : Char) (cs : List Char) :
    splitLines (c :: cs) =
      if c = '\n' then ([] :: (splitLines cs).1, (splitLines cs).2)
      else
        match splitLines cs with
        | ([], rem) => ([], c :: rem)
        | (l :: ls, rem) => ((c :: l) :: ls, rem) := rfl

theorem splitLines_rem_noNl (l : List Char) : '\n' ∉ (splitLines l).2 := by
  induction l with
  | nil => simp [splitLines]
  | cons c cs ih =>
    rw [splitLines_cons]
    by_cases hc : c = '\n'
    · simpa [hc] using ih
    · rcases h : splitLines cs with ⟨A, rm⟩
      rw [h] at ih
      cases A <;> simp_all <;> exact Ne.symm hc

theorem splitLines_of_noNl (l : List Char) (h : '\n' ∉ l) : splitLines l = ([], l) := by
  induction l with
  | nil => rfl
  | cons c cs ih =>
    rw [splitLines_cons]
    have hc : c ≠ '\n' := fun e => h (e ▸ List.mem_cons_self c cs)
    rw [if_neg hc, ih (fun hm => h (List.mem_cons_of_mem c hm))]

theorem splitLines_append (a b : List Char) :
    splitLines (a ++ b)
      = ((splitLines a).1 ++ (splitLines ((splitLines a).2 ++ b)).1,
         (splitLines ((splitLines a).2 ++ b)).2) := by
  induction a with
  | nil => simp [splitLines]
  | cons c cs ih =>
    by_cases hc : c = '\n'
    · subst hc
      rw [List.cons_append, splitLines_cons, if_pos rfl, ih, splitLines_cons, if_pos rfl]
      simp
    · rcases hA : splitLines cs with ⟨A, remcs⟩
      rw [List.cons_append, splitLines_cons, if_neg hc, ih, hA]
      cases A with
      | nil =>
        rw [splitLines_cons, if_neg hc, hA]
        rcases hQ : splitLines (remcs ++ b) with ⟨Q, remq⟩
        cases Q <;> simp [splitLines_cons, if_neg hc, hQ]
      | cons x xs =>
        rw [splitLines_cons, if_neg hc, hA]
        rcases hQ : splitLines (remcs ++ b) with ⟨Q, remq⟩
        simp [hQ]

theorem splitLines_line (l rest : List Char) (h : '\n' ∉ l) :
    splitLines (l ++ '\n' :: rest)
      = (l :: (splitLines rest).1, (splitLines rest).2) := by
  induction l with
  | nil => simp [splitLines_cons]
  | cons c cs ih =>
    have hc : c ≠ '\n' := fun e => h (e ▸ List.mem_cons_self c cs)
    rw [List.cons_append, splitLines_cons, if_neg hc,
      ih (fun hm => h (List.mem_cons_of_mem c hm))]

/-- A stream consisting of the given lines, each newline-terminated. -/
def joinLines (ls : List (List Char)) : List Char :=
  (ls.map (fun l => l ++ ['\n'])).flatten

theorem splitLines_joinLines (ls : List (List Char)) (h : ∀ l ∈ ls, '\n' ∉ l) :
    splitLines (joinLines ls) = (ls, []) := by
  induction ls with
  | nil => rfl
  | cons l ls ih =>
    have hj : joinLines (l :: ls) = l ++ '\n' :: joinLines ls := by
      simp [joinLines]
    rw [hj, splitLines_line l _ (h l (List.mem_cons_self l ls)),
      ih (fun x hx => h x (List.mem_cons_of_mem l hx))]

/-- A trivial concrete decoder (every line fails to decode). -/
def unitDecoder : Decoder Unit :=
  { parse := fun _ => none, isObj := fun _ => true, typeOf := fun _ => "unknown",
    dataOf := fun _ => [], messageOf := fun _ => "" }

/-- The final-buffer drain of `stream_execute_on_kernel`
(`services/execution.py` lines 427-433): a non-empty stripped remainder is
forwarded as one final line — unchanged when it parses as JSON, as a
synthesized stdout event otherwise.  Unlike the in-stream loop, this path
updates no accumulator. -/
def drainRemainder {J : Type} (d : Decoder J) (st : StreamState J) : StreamState J :=
  let line := trimChars st.buf
  if line = [] then st
  else
    match d.parse line with
    | some _ => {st with events := st.events ++ [.raw (line ++ ['\n'])]}
    | none => {st with events := st.events ++ [.synthStdout (line ++ ['\n'])]}

/-- The stderr drain (lines 435-443): stderr is read in full; when any
chunks were collected, exactly one synthesized stderr event carrying their
concatenation is forwarded (never accumulated into stdout). -/
def drainStderr {J : Type} (st : StreamState J) (stderrChunks : List (List Char)) :
    StreamState J :=
  if stderrChunks = [] then st
  else {st with events := st.events ++ [.synthStderr stderrChunks.flatten]}

/-- Model of the full forwarding pipeline of `stream_execute_on_kernel`
(lines 392-443): the chunk loop, the final-buffer drain, the stderr
drain. -/
def stream_execute_on_kernel {J : Type} (d : Decoder J)
    (stdoutChunks stderrChunks : List (List Char)) : StreamState J :=
  drainStderr (drainRemainder d (runChunks d stdoutChunks)) stderrChunks

/-- C4 counterexample: with leftover remainder `x` (no trailing newline)
that is not valid JSON, the final line is forwarded as a synthesized stdout
event but the stdout accumulator is NOT updated — it stays empty instead of
becoming `x\n` — so the final line is not processed under the same rule as
in-stream lines. -/
theorem drain_does_not_accumulate :
    (stream_execute_on_kernel unitDecoder [['x']] []).events
      = [StreamEvent.synthStdout ['x', '\n']]
    ∧ (stream_execute_on_kernel unitDecoder [['x']] []).stdoutAcc = []
    ∧ (stream_execute_on_kernel unitDecoder [['x']] []).stdoutAcc ≠ ['x', '\n'] := by
  refine ⟨?_, ?_, ?_⟩ <;> decide

/-- C4 (amended): after the output stream ends, a non-empty stripped
remainder in the line buffer is processed as one final line for forwarding
only — forwarded unchanged when it is valid JSON, forwarded as a
synthesized stdout event otherwise — but, unlike in-stream lines, it
updates no accumulator (in particular a non-JSON final line is not added to
the stdout accumulator); a whitespace-only remainder is ignored; then
stderr is drained in full and, when chunks were collected, forwarded as
exactly one stderr event that is not accumulated into stdout. -/
theorem stream_drain_spec {J : Type} (d : Decoder J)
    (stdoutChunks stderrChunks : List (List Char)) :
    (trimChars (runChunks d stdoutChunks).buf ≠ [] →
      (drainRemainder d (runChunks d stdoutChunks)).events
        = (runChunks d stdoutChunks).events
          ++ [if (d.parse (trimChars (runChunks d stdoutChunks).buf)).isSome
              then StreamEvent.raw (trimChars (runChunks d stdoutChunks).buf ++ ['\n'])
              else StreamEvent.synthStdout
                (trimChars (runChunks d stdoutChunks).buf ++ ['\n'])])
    ∧ (trimChars (runChunks d stdoutChunks).buf = [] →
        drainRemainder d (runChunks d stdoutChunks) = runChunks d stdoutChunks)
    ∧ (drainRemainder d (runChunks d stdoutChunks)).stdoutAcc
        = (runChunks d stdoutChunks).stdoutAcc
    ∧ (drainRemainder d (runChunks d stdoutChunks)).images
        = (runChunks d stdoutChunks).images
    ∧ (drainRemainder d (runChunks d stdoutChunks)).resultEv
        = (runChunks d stdoutChunks).resultEv
    ∧ (drainRemainder d (runChunks d stdoutChunks)).errorMsg
        = (runChunks d stdoutChunks).errorMsg
    ∧ (stderrChunks ≠ [] →
        (stream_execute_on_kernel d stdoutChunks stderrChunks).events
          = (drainRemainder d (runChunks d stdoutChunks)).events
            ++ [StreamEvent.synthStderr stderrChunks.flatten])
    ∧ (stderrChunks = [] →
        stream_execute_on_kernel d stdoutChunks stderrChunks
          = drainRemainder d (runChunks d stdoutChunks))
    ∧ (stream_execute_on_kernel d stdoutChunks stderrChunks).stdoutAcc
        = (runChunks d stdoutChunks).stdoutAcc := by
  have hdrain : ∀ st : StreamState J,
      (trimChars st.buf ≠ [] →
        (drainRemainder d st).events
          = st.events ++ [if (d.parse (trimChars st.buf)).isSome
              then StreamEvent.raw (trimChars st.buf ++ ['\n'])
              else StreamEvent.synthStdout (trimChars st.buf ++ ['\n'])])
      ∧ (trimChars st.buf = [] → drainRemainder d st = st)
      ∧ (drainRemainder d st).stdoutAcc = st.stdoutAcc
      ∧ (drainRemainder d st).images = st.images
      ∧ (drainRemainder d st).resultEv = st.resultEv
      ∧ (drainRemainder d st).errorMsg = st.errorMsg := by
    intro st
    unfold drainRemainder
    by_cases h : trimChars st.buf = []
    · simp [h]
    · cases hp : d.parse (trimChars st.buf) <;>
        simp [h, hp]
  have hstd : ∀ st : StreamState J,
      (stderrChunks ≠ [] →
        (drainStderr st stderrChunks).events
          = st.events ++ [StreamEvent.synthStderr stderrChunks.flatten])
      ∧ (stderrChunks = [] → drainStderr st stderrChunks = st)
      ∧ (drainStderr st stderrChunks).stdoutAcc = st.stdoutAcc := by
    intro st
    unfold drainStderr
    by_cases h : stderrChunks = [] <;> simp [h]
  obtain ⟨d1, d2, d3, d4, d5, d6⟩ := hdrain (runChunks d stdoutChunks)
  obtain ⟨s1, s2, s3⟩ := hstd (drainRemainder d (runChunks d stdoutChunks))
  exact ⟨d1, d2, d3, d4, d5, d6, s1, s2, by rw [show (stream_execute_on_kernel d
    stdoutChunks stderrChunks).stdoutAcc = (drainStderr (drainRemainder d
    (runChunks d stdoutChunks)) stderrChunks).stdoutAcc from rfl, s3, d3]⟩

theorem stream_drain_spec_witness :
    trimChars (runChunks unitDecoder [['x']]).buf ≠ []
    ∧ (drainRemainder unitDecoder (runChunks unitDecoder [['x']])).events
        = (runChunks unitDecoder [['x']]).events
          ++ [StreamEvent.synthStdout (trimChars (runChunks unitDecoder [['x']]).buf
              ++ ['\n'])]
    ∧ ([['e']] : List (List Char)) ≠ []
    ∧ (stream_execute_on_kernel unitDecoder [['x']] [['e']]).events
        = (drainRemainder unitDecoder (runChunks unitDecoder [['x']])).events
          ++ [StreamEvent.synthStderr [['e']].flatten] := by
  have h1 := (stream_drain_spec unitDecoder [['x']] [['e']]).1 (by decide)
  have h7 := (stream_drain_spec unitDecoder [['x']] [['e']]).2.2.2.2.2.2.1 (by decide)
  refine ⟨by decide, ?_, by decide, h7⟩
  rw [h1]
  decide

/-! ## Streaming wrapper stdout interception (`_build_streaming_wrapper`) — C5 -/

/-- A wrapper-level NDJSON event, as written by `emit` in the streaming
wrapper to raw fd 1. -/
inductive WEvent where
  | stdout (data : List Char)
  | image (data : List Char)
  | result (payload : ResultPayload)
  | error (message : List Char)
  | done
deriving DecidableEq

/-- The `StreamingStdout` interceptor of the streaming wrapper
(`services/execution.py` lines 175-194): a text buffer. -/
structure StreamingStdout where
  buffer : List Char
deriving DecidableEq

/-- Model of `StreamingStdout.write`: ignore empty text; otherwise append the text
to the buffer and, for every complete line now in the buffer, emit one
stdout event carrying the line plus its newline — except that empty lines
are skipped (`if line:`).  The remainder stays buffered. -/
def wsWrite (s : StreamingStdout) (text : List Char) : StreamingStdout × List WEvent :=
  if text = [] then (s, [])
  else
    let p := splitLines (s.buffer ++ text)
    (⟨p.2⟩, (p.1.filter (fun l => l ≠ [])).map (fun l => WEvent.stdout (l ++ ['\n'])))

/-- Model of `StreamingStdout.flush`: a non-empty buffer is emitted as one stdout
event (without adding a newline) and cleared; an empty buffer emits
nothing. -/
def wsFlush (s : StreamingStdout) : StreamingStdout × List WEvent :=
  if s.buffer = [] then (s, [])
  else (⟨[]⟩, [WEvent.stdout s.buffer])

/-- A sequence of user `write` calls, with the emitted events collected in
order. -/
def runWrites (s : StreamingStdout) : List (List Char) → StreamingStdout × List WEvent
  | [] => (s, [])
  | t :: ts =>
    let r := wsWrite s t
    let rest := runWrites r.1 ts
    (rest.1, r.2 ++ rest.2)

/-- The write calls Python `print(x)` performs: the printed text, then the
newline end. -/
def printWrites (s : List Char) : List (List Char) := [s, ['\n']]

/-- The event stream of the streaming wrapper (`_build_streaming_wrapper`,
lines 263-311): the events emitted by user writes through the intercepted
stdout, the final flush, then one image event per captured figure, one
result event when a result payload was produced, one error event when user
code raised, and exactly one done event. -/
def streaming_wrapper_events (writes : List (List Char)) (images : List (List Char))
    (exprResult : Option ResultPayload) (errorMsg : Option (List Char)) : List WEvent :=
  let r := runWrites ⟨[]⟩ writes
  let fl := wsFlush r.1
  r.2 ++ fl.2
    ++ images.map WEvent.image
    ++ (match exprResult with | some p => [WEvent.result p] | none => [])
    ++ (match errorMsg with | some m => [WEvent.error m] | none => [])
    ++ [WEvent.done]

theorem wsWrite_ne (s : StreamingStdout) (t : List Char) (ht : t ≠ []) :
    wsWrite s t
      = (⟨(splitLines (s.buffer ++ t)).2⟩,
         ((splitLines (s.buffer ++ t)).1.filter (fun l => l ≠ [])).map
           (fun l => WEvent.stdout (l ++ ['\n']))) := by
  unfold wsWrite
  rw [if_neg ht]

theorem wsWrite_buffer_noNl (s : StreamingStdout) (t : List Char)
    (h : '\n' ∉ s.buffer) : '\n' ∉ (wsWrite s t).1.buffer := by
  by_cases ht : t = []
  · unfold wsWrite
    rw [if_pos ht]
    exact h
  · rw [wsWrite_ne s t ht]
    exact splitLines_rem_noNl _

theorem runWrites_eq (s : StreamingStdout) (writes : List (List Char))
    (h : '\n' ∉ s.buffer) :
    runWrites s writes
      = (⟨(splitLines (s.buffer ++ writes.flatten)).2⟩,
         ((splitLines (s.buffer ++ writes.flatten)).1.filter (fun l => l ≠ [])).map
           (fun l => WEvent.stdout (l ++ ['\n']))) := by
  induction writes generalizing s with
  | nil =>
    simp only [runWrites, List.flatten_nil, List.append_nil, splitLines_of_noNl _ h]
    rfl
  | cons t ts ih =>
    simp only [runWrites]
    rw [ih _ (wsWrite_buffer_noNl s t h)]
    by_cases ht : t = []
    · subst ht
      simp [wsWrite]
    · rw [wsWrite_ne s t ht]
      dsimp only
      rw [List.flatten_cons, ← List.append_assoc,
        splitLines_append (s.buffer ++ t) ts.flatten]
      simp [List.filter_append]

/-- C5 counterexample: printing an empty line (`print("")` writes just a
newline) completes one line, yet no stdout event is emitted for it — the
wrapper emits only the final done event — so not every completed line
yields a stdout event. -/
theorem print_empty_line_no_event :
    streaming_wrapper_events (printWrites []) [] none none = [WEvent.done]
    ∧ streaming_wrapper_events (printWrites []) [] none none
      ≠ [WEvent.stdout ['\n'], WEvent.done] := by
  constructor <;> decide

/-- C5 (amended): in the streaming wrapper, every completed
(newline-terminated) line with non-empty content that user code writes to
standard output is emitted as one stdout event carrying the line plus its
newline, in completion order; completed empty lines are dropped (no event);
buffered partial output remaining when user code finishes is flushed as one
final stdout event; and for a fragment that prints `a` then `b` the emitted
sequence is exactly stdout "a\n", stdout "b\n", done — no image, result, or
error events. -/
theorem streaming_stdout_spec (writes : List (List Char)) (ls : List (List Char))
    (s : StreamingStdout) :
    runWrites ⟨[]⟩ writes
      = (⟨(splitLines writes.flatten).2⟩,
         ((splitLines writes.flatten).1.filter (fun l => l ≠ [])).map
           (fun l => WEvent.stdout (l ++ ['\n'])))
    ∧ ((∀ l ∈ ls, '\n' ∉ l ∧ l ≠ []) →
        (runWrites ⟨[]⟩ (ls.map (fun l => l ++ ['\n']))).2
          = ls.map (fun l => WEvent.stdout (l ++ ['\n'])))
    ∧ (s.buffer ≠ [] → wsFlush s = (⟨[]⟩, [WEvent.stdout s.buffer]))
    ∧ (s.buffer = [] → wsFlush s = (s, []))
    ∧ streaming_wrapper_events (printWrites (lit "a") ++ printWrites (lit "b")) [] none none
        = [WEvent.stdout (lit "a" ++ ['\n']), WEvent.stdout (lit "b" ++ ['\n']),
           WEvent.done] := by
  have hrw : ∀ ws : List (List Char), runWrites ⟨[]⟩ ws
      = (⟨(splitLines ws.flatten).2⟩,
         ((splitLines ws.flatten).1.filter (fun l => l ≠ [])).map
           (fun l => WEvent.stdout (l ++ ['\n']))) := by
    intro ws
    rw [runWrites_eq ⟨[]⟩ ws (by simp)]
    rfl
  refine ⟨hrw writes, fun h => ?_, fun hne => ?_, fun he => ?_, by decide⟩
  · rw [hrw (ls.map (fun l => l ++ ['\n']))]
    have hsplit : splitLines (ls.map (fun l => l ++ ['\n'])).flatten = (ls, []) :=
      splitLines_joinLines ls (fun l hl => (h l hl).1)
    rw [hsplit]
    dsimp only
    have hfilter : ls.filter (fun l => l ≠ []) = ls :=
      List.filter_eq_self.mpr (fun l hl => by simp [(h l hl).2])
    rw [hfilter]
  · unfold wsFlush
    rw [if_neg hne]
  · unfold wsFlush
    rw [if_pos he]

theorem streaming_stdout_spec_witness :
    (∀ l ∈ [lit "hi"], '\n' ∉ l ∧ l ≠ [])
    ∧ (runWrites ⟨[]⟩ ([lit "hi"].map (fun l => l ++ ['\n']))).2
        = [WEvent.stdout (lit "hi" ++ ['\n'])]
    ∧ (⟨lit "part"⟩ : StreamingStdout).buffer ≠ []
    ∧ wsFlush ⟨lit "part"⟩ = (⟨[]⟩, [WEvent.stdout (lit "part")]) := by
  have h2 := (streaming_stdout_spec [] [lit "hi"] ⟨lit "part"⟩).2.1 (by decide)
  have h3 := (streaming_stdout_spec [] [lit "hi"] ⟨lit "part"⟩).2.2.1 (by decide)
  exact ⟨by decide, by rw [h2]; rfl, by decide, h3⟩

/-! ## Namespace persistence (both wrappers) — C10 -/

/-- A Python value as seen by the persistence filter: a string, or some
other object that either pickles or does not. -/
inductive PyVal where
  | pstr (s : String)
  | pobj (canPickle : Bool)
deriving DecidableEq

/-- Whether `pickle.dumps(v)` succeeds (strings always pickle). -/
def pickles : PyVal → Bool
  | .pstr _ => true
  | .pobj b => b

/-- Python `d[k] = v` on an ordered association list: replace in place when
the key is present, append otherwise. -/
def dictSet (d : List (String × PyVal)) (k : String) (v : PyVal) :
    List (String × PyVal) :=
  if d.any (fun kv => kv.1 = k) then
    d.map (fun kv => if kv.1 = k then (k, v) else kv)
  else d ++ [(k, v)]

/-- Python `d.get(k)` on an ordered association list. -/
def dictGet (d : List (String × PyVal)) (k : String) : Option PyVal :=
  (d.find? (fun kv => kv.1 = k)).map (fun kv => kv.2)

/-- Model of the persist-globals block shared by the batch wrapper
(`services/execution.py` lines 123-140) and the streaming wrapper (lines
282-298): keep the entries whose key does not start with an underscore and
whose value pickles, then set `__name__` to `"__main__"`. -/
def persistGlobals (g : List (String × PyVal)) : List (String × PyVal) :=
  let saveable := g.filter (fun kv => !(lit "_").isPrefixOf kv.1.toList && pickles kv.2)
  dictSet saveable "__name__" (.pstr "__main__")

/-- The outcome of one wrapper execution: the final globals, and the error
trace when user code raised.  The persistence block runs in both cases. -/
structure WrapperExec where
  finalGlobals : List (String × PyVal)
  errorTrace : Option String

/-- What either wrapper writes to `/tmp/kernel_state.pkl` after an
execution. -/
def wrapperPersisted (e : WrapperExec) : List (String × PyVal) :=
  persistGlobals e.finalGlobals

theorem persistGlobals_eq (g : List (String × PyVal)) :
    persistGlobals g
      = g.filter (fun kv => !(lit "_").isPrefixOf kv.1.toList && pickles kv.2)
        ++ [("__name__", PyVal.pstr "__main__")] := by
  unfold persistGlobals dictSet
  rw [if_neg]
  intro hany
  rw [List.any_eq_true] at hany
  obtain ⟨kv, hmem, hk⟩ := hany
  rw [List.mem_filter] at hmem
  have hp := hmem.2
  have hk2 : kv.1 = "__name__" := by simpa using hk
  rw [hk2] at hp
  rw [show (lit "_").isPrefixOf (String.toList "__name__") = true from by decide] at hp
  simp at hp

theorem dictGet_append_singleton (d : List (String × PyVal)) (k0 : String) (v0 : PyVal)
    (h : ∀ kv ∈ d, kv.1 ≠ k0) : dictGet (d ++ [(k0, v0)]) k0 = some v0 := by
  induction d with
  | nil => simp [dictGet]
  | cons kv d ih =>
    have hne : kv.1 ≠ k0 := h kv (List.mem_cons_self kv d)
    have ih2 := ih (fun x hx => h x (List.mem_cons_of_mem kv hx))
    unfold dictGet at ih2 ⊢
    rw [List.cons_append, List.find?_cons,
      show decide (kv.1 = k0) = false from by simpa using hne]
    exact ih2

/-- C10 counterexample: the persisted namespace always contains the binding
`__name__`, whose name starts with an underscore, so it is not true that the
persisted namespace never contains a binding whose name starts with an
underscore. -/
theorem persisted_contains_dunder_name :
    persistGlobals [] = [("__name__", PyVal.pstr "__main__")]
    ∧ ("__name__", PyVal.pstr "__main__") ∈ persistGlobals []
    ∧ (lit "_").isPrefixOf (String.toList "__name__") = true := by
  refine ⟨by decide, by decide, by decide⟩

/-- C10 (amended): in both wrappers, the persisted namespace contains,
apart from the `__name__` binding itself, no binding whose name starts with
an underscore — underscore-prefixed entries are dropped even when their
values are serializable, and every surviving other binding comes from the
final globals with a picklable value — and it always maps `__name__` to
`"__main__"`; the filter applies on every execution, successful or failed
(the persisted namespace depends only on the final globals, not on the
error trace). -/
theorem persistGlobals_spec (g : List (String × PyVal)) (e e2 : WrapperExec)
    (k : String) (v : PyVal) :
    ((k, v) ∈ persistGlobals g →
      (k = "__name__" ∧ v = .pstr "__main__")
      ∨ ((lit "_").isPrefixOf k.toList = false ∧ pickles v = true ∧ (k, v) ∈ g))
    ∧ dictGet (persistGlobals g) "__name__" = some (.pstr "__main__")
    ∧ ((lit "_").isPrefixOf k.toList = true → k ≠ "__name__" →
        (k, v) ∉ persistGlobals g)
    ∧ (e.finalGlobals = e2.finalGlobals → wrapperPersisted e = wrapperPersisted e2) := by
  refine ⟨fun hm => ?_, ?_, fun hpre hne hm => ?_, fun he => ?_⟩
  · rw [persistGlobals_eq, List.mem_append] at hm
    rcases hm with hm | hm
    · rw [List.mem_filter] at hm
      refine Or.inr ⟨?_, ?_, hm.1⟩
      · have := hm.2
        simp only [Bool.and_eq_true, Bool.not_eq_true'] at this
        exact this.1
      · have := hm.2
        simp only [Bool.and_eq_true] at this
        exact this.2
    · simp only [List.mem_singleton, Prod.mk.injEq] at hm
      exact Or.inl ⟨hm.1, hm.2⟩
  · rw [persistGlobals_eq]
    refine dictGet_append_singleton _ _ _ (fun kv hkv => ?_)
    rw [List.mem_filter] at hkv
    intro heq
    have hp := hkv.2
    rw [heq, show (lit "_").isPrefixOf (String.toList "__name__") = true from by decide]
      at hp
    simp at hp
  · rw [persistGlobals_eq, List.mem_append] at hm
    rcases hm with hm | hm
    · rw [List.mem_filter] at hm
      have hp := hm.2
      rw [hpre] at hp
      simp at hp
    · simp only [List.mem_singleton, Prod.mk.injEq] at hm
      exact hne hm.1
  · unfold wrapperPersisted
    rw [he]

theorem persistGlobals_spec_witness :
    ((lit "_").isPrefixOf (String.toList "_hidden") = true ∧ "_hidden" ≠ "__name__")
    ∧ ("_hidden", PyVal.pstr "v")
        ∉ persistGlobals [("_hidden", PyVal.pstr "v"), ("a", PyVal.pstr "w")]
    ∧ dictGet (persistGlobals [("_hidden", PyVal.pstr "v"), ("a", PyVal.pstr "w")])
        "__name__" = some (.pstr "__main__") := by
  have h3 := (persistGlobals_spec [("_hidden", PyVal.pstr "v"), ("a", PyVal.pstr "w")]
    ⟨[], none⟩ ⟨[], none⟩ "_hidden" (PyVal.pstr "v")).2.2.1 (by decide) (by decide)
  have h2 := (persistGlobals_spec [("_hidden", PyVal.pstr "v"), ("a", PyVal.pstr "w")]
    ⟨[], none⟩ ⟨[], none⟩ "_hidden" (PyVal.pstr "v")).2.1
  exact ⟨⟨by decide, by decide⟩, h3, h2⟩

/-! ## Streaming route retry loop (`routes/execute.py`) — C3 -/

/-- The observable outcome of one `stream_execute_on_kernel` call against a
given context: the events it yielded before it either completed normally,
raised `modal.exception.NotFoundError` (context lost), or raised another
exception. -/
inductive AttemptOutcome (E : Type) where
  | success (evs : List E)
  | notFound (evs : List E) (msg : String)
  | otherFail (evs : List E) (msg : String)
deriving DecidableEq

/-- An event yielded by the route's `event_generator`: an upstream event
forwarded from the stream executor, the synthetic restart-notice stdout
event, or the error/done events of the outer exception handler. -/
inductive RouteEvent (E : Type) where
  | upstream (e : E)
  | restartNotice
  | errorEvent (msg : String)
  | doneEvent
deriving DecidableEq

/-- The `while True` retry loop of `stream_execute_cell.event_generator`
(`routes/execute.py` lines 197-213).  `behavior c` is the outcome of
streaming against context `c`; `freshCtx` is the context produced by
terminate-and-recreate.  `retriesLeft` encodes the `retried` flag (`1` for
`retried = False`, `0` for `retried = True`: the loop retries exactly while
retries remain).  Returns the yielded events, the contexts attempted in
order, and the propagated exception message, if any. -/
def streamLoop {E : Type} (behavior : Nat → AttemptOutcome E) (c freshCtx : Nat) :
    Nat → List (RouteEvent E) × List Nat × Option String
  | 0 =>
    match behavior c with
    | .success evs => (evs.map .upstream, [c], none)
    | .notFound evs msg => (evs.map .upstream, [c], some msg)
    | .otherFail evs msg => (evs.map .upstream, [c], some msg)
  | n + 1 =>
    match behavior c with
    | .success evs => (evs.map .upstream, [c], none)
    | .otherFail evs msg => (evs.map .upstream, [c], some msg)
    | .notFound evs _ =>
      let r := streamLoop behavior freshCtx freshCtx n
      (evs.map .upstream ++ [.restartNotice] ++ r.1, c :: r.2.1, r.2.2)

/-- The route's `event_generator` (`routes/execute.py` lines 174-217) after
cell validation: run the retry loop with one permitted retry; an exception
escaping the loop is converted by the outer handler into an error event
followed by a done event. -/
def event_generator {E : Type} (behavior : Nat → AttemptOutcome E)
    (c0 freshCtx : Nat) : List (RouteEvent E) :=
  let r := streamLoop behavior c0 freshCtx 1
  match r.2.2 with
  | none => r.1
  | some m => r.1 ++ [.errorEvent m, .doneEvent]

/-- C3: the streaming route retries at most once per call — at most two
contexts are ever attempted; on a first context-not-found failure the
synthetic restart-notice event is emitted after the events already yielded
and before every event from the fresh context, against which execution
restarts; when the fresh context also fails with context-not-found the
exception propagates (the outer handler converts it to an error event and a
done event) instead of a second retry, so exactly two contexts were
attempted. -/
theorem stream_retry_spec {E : Type} (behavior : Nat → AttemptOutcome E)
    (c0 f : Nat) (evs1 evs2 : List E) (m1 m2 : String) :
    (streamLoop behavior c0 f 1).2.1.length ≤ 2
    ∧ (behavior c0 = .success evs1 →
        event_generator behavior c0 f = evs1.map .upstream)
    ∧ (behavior c0 = .notFound evs1 m1 → behavior f = .success evs2 →
        event_generator behavior c0 f
          = evs1.map .upstream ++ [.restartNotice] ++ evs2.map .upstream
        ∧ (streamLoop behavior c0 f 1).2.1 = [c0, f])
    ∧ (behavior c0 = .notFound evs1 m1 → behavior f = .notFound evs2 m2 →
        event_generator behavior c0 f
          = evs1.map .upstream ++ [.restartNotice] ++ evs2.map .upstream
            ++ [.errorEvent m2, .doneEvent]
        ∧ (streamLoop behavior c0 f 1).2.1 = [c0, f]) := by
  refine ⟨?_, fun h1 => ?_, fun h1 h2 => ?_, fun h1 h2 => ?_⟩
  · cases hb : behavior c0 <;> simp only [streamLoop, hb] <;>
      try simp
    cases hf : behavior f <;> simp [streamLoop, hf]
  · simp [event_generator, streamLoop, h1]
  · constructor <;> simp [event_generator, streamLoop, h1, h2]
  · constructor <;> simp [event_generator, streamLoop, h1, h2]

theorem stream_retry_spec_witness :
    event_generator (fun c => if c = 0 then AttemptOutcome.notFound ([10] : List Nat) "nf1"
        else AttemptOutcome.notFound [20] "nf2") 0 1
      = ([10] : List Nat).map RouteEvent.upstream ++ [RouteEvent.restartNotice]
        ++ ([20] : List Nat).map RouteEvent.upstream
        ++ [RouteEvent.errorEvent "nf2", RouteEvent.doneEvent]
    ∧ (streamLoop (fun c => if c = 0 then AttemptOutcome.notFound ([10] : List Nat) "nf1"
        else AttemptOutcome.notFound [20] "nf2") 0 1 1).2.1 = [0, 1] := by
  have h := (stream_retry_spec (fun c => if c = 0 then
      AttemptOutcome.notFound ([10] : List Nat) "nf1"
      else AttemptOutcome.notFound [20] "nf2") 0 1 [10] [20] "nf1" "nf2").2.2.2
    rfl rfl
  exact ⟨h.1, h.2⟩
